import Mathlib

/-!
# Verification of the ETF tracker pipeline (`etf_tracker.py`)

A shallow embedding of the ETF tracker script: input parsing, weight
validation, the return engine (daily / cumulative / portfolio returns with
missing-value propagation) and the risk-metrics engine, together with
theorems settling the specification's claims.

Conventions of the embedding:

* Python strings are `List Char`; Python floats are `ℚ` (exact arithmetic,
  the claims allow floating-point tolerance).
* A missing value (pandas `NaN`) is `Option.none`, so a date-indexed series
  with possible gaps is a `List (Option ℚ)`.
* `float(...)` parsing may fail, so a weight parser is any function
  `List Char → Option ℚ`; the pipeline is parametrised by it.
* IEEE division producing a non-finite value (`inf`/`nan`) when the
  denominator is zero is modelled by an `Option`-valued division: `none`
  stands for the non-finite result.
-/

set_option autoImplicit false

namespace EtfTracker

/-! ## Input Collector — `etfs.split(",")`, `.strip()`, `.upper()`, `float(...)` -/

/-- Python `s.split(sep)` for a one-character separator: always returns at
least one (possibly empty) piece. Mirrors `etfs.split(",")` on line 26 and
`weights_input.split(",")` on line 31. -/
def pySplit (sep : Char) : List Char → List (List Char)
  | [] => [[]]
  | c :: rest =>
    match pySplit sep rest, decEq c sep with
    | r, .isTrue _ => [] :: r
    | [], .isFalse _ => [[c]]
    | t :: ts, .isFalse _ => (c :: t) :: ts

/-- Python `s.strip()`: drop leading and trailing whitespace. -/
def pyStrip (l : List Char) : List Char :=
  ((l.dropWhile Char.isWhitespace).reverse.dropWhile Char.isWhitespace).reverse

/-- Python `s.upper()` (on the ASCII symbols tickers are made of). -/
def pyUpper (l : List Char) : List Char :=
  l.map Char.toUpper

/-- Line 26: `etf_list = [e.strip().upper() for e in etfs.split(",")]`. -/
def etf_list (etfs : List Char) : List (List Char) :=
  (pySplit ',' etfs).map (fun e => pyUpper (pyStrip e))

/-- Line 31: `weights_list = [float(w.strip()) for w in weights_input.split(",")]`,
parametrised by the semantics `pyFloat` of Python's `float(...)`; `none` from
the parser is an uncaught `ValueError`, making the whole comprehension fail. -/
def weights_list (pyFloat : List Char → Option ℚ) (weights_input : List Char) :
    Option (List ℚ) :=
  (pySplit ',' weights_input).mapM (fun w => pyFloat (pyStrip w))

/-! ## Pipeline control flow — validation, stop, download -/

/-- How one run of the script ends, seen from the outside:
an uncaught Python exception, an `st.error` message followed by `st.stop()`,
or reaching the `yf.download` call on line 45 with the parsed inputs. -/
inductive RunOutcome where
  | uncaughtException : RunOutcome
  | validationError (msg : String) : RunOutcome
  | download (tickers : List (List Char)) (weights : List ℚ) : RunOutcome
  deriving DecidableEq

/-- Lines 34–45: the two validation checks, in source order, then the
network fetch. `1/1000` is the literal `0.001` of line 38. -/
def validateAndRun (etfList : List (List Char)) (weightsList : List ℚ) :
    RunOutcome :=
  if weightsList.length ≠ etfList.length then
    .validationError "Number of weights must match number of ETFs"
  else if |weightsList.sum - 1| > 1 / 1000 then
    .validationError "Weights must sum to 1. Please adjust."
  else
    .download etfList weightsList

/-- Lines 26–45 end to end: parse both inputs, then validate, then fetch.
A token that `float(...)` rejects aborts the run before any check. -/
def runPipeline (pyFloat : List Char → Option ℚ)
    (etfs weights_input : List Char) : RunOutcome :=
  match weights_list pyFloat weights_input with
  | none => .uncaughtException
  | some ws => validateAndRun (etf_list etfs) ws

/-- The network request (the ticker list sent to the provider) an outcome
carries, if the run reached the download on line 45. -/
def networkRequest : RunOutcome → Option (List (List Char))
  | .download tickers _ => some tickers
  | _ => none

/-! ## Return Engine — lines 49–54

`pct_change`, `cumprod` (with pandas' default `skipna=True`), the portfolio
dot product (numpy semantics: any `NaN` contribution poisons the sum). -/

/-- `adj_close.pct_change()` (line 49) on one ticker's price column:
the first date has no prior day and is missing; afterwards
`(price[t] - price[t-1]) / price[t-1]`. -/
def pct_change : List ℚ → List (Option ℚ)
  | [] => []
  | p :: rest =>
    none :: List.zipWith (fun prev cur => some ((cur - prev) / prev)) (p :: rest) rest

/-- Cumulative product of a gap-free column, `acc` the product so far. -/
def cumprodAux (acc : ℚ) : List ℚ → List ℚ
  | [] => []
  | x :: xs => (acc * x) :: cumprodAux (acc * x) xs

/-- `Series.cumprod()` on a gap-free column. -/
def cumprod (l : List ℚ) : List ℚ :=
  cumprodAux 1 l

/-- `Series.cumprod()` with pandas' default `skipna=True`: a missing entry
stays missing and does not enter the running product. -/
def cumprodNAAux (acc : ℚ) : List (Option ℚ) → List (Option ℚ)
  | [] => []
  | none :: xs => none :: cumprodNAAux acc xs
  | some x :: xs => some (acc * x) :: cumprodNAAux (acc * x) xs

/-- `(1 + daily_returns).cumprod()` respecting missing values. -/
def cumprodNA (l : List (Option ℚ)) : List (Option ℚ) :=
  cumprodNAAux 1 l

/-- Line 50 for one ticker: `cumulative_returns = (1 + daily_returns).cumprod() - 1`. -/
def cumulative_returns (prices : List ℚ) : List (Option ℚ) :=
  (cumprodNA ((pct_change prices).map (Option.map (fun r => 1 + r)))).map
    (Option.map (fun c => c - 1))

/-- Sum of possibly-missing summands, numpy style: any `NaN` makes the whole
sum `NaN`; the empty sum is `0`. -/
def sumNA : List (Option ℚ) → Option ℚ
  | [] => some 0
  | none :: _ => none
  | some x :: xs => (sumNA xs).map (fun s => x + s)

/-- One date's entry of `daily_returns.dot(weights_series)` (line 53): the
row of per-ticker daily returns against the weight vector. A missing return
for any ticker makes the whole dot product missing for that date. -/
def dotNA (row : List (Option ℚ)) (w : List ℚ) : Option ℚ :=
  sumNA (List.zipWith (fun x wi => x.map (fun r => r * wi)) row w)

/-- Line 53: `portfolio_daily_returns = daily_returns.dot(weights_series)`,
with the frame given as one row of per-ticker returns per date. -/
def portfolio_daily_returns (rows : List (List (Option ℚ))) (w : List ℚ) :
    List (Option ℚ) :=
  rows.map (fun row => dotNA row w)

/-- Line 54: `portfolio_cumulative_returns = (1 + portfolio_daily_returns).cumprod() - 1`. -/
def portfolio_cumulative_returns (rows : List (List (Option ℚ))) (w : List ℚ) :
    List (Option ℚ) :=
  (cumprodNA ((portfolio_daily_returns rows w).map (Option.map (fun r => 1 + r)))).map
    (Option.map (fun c => c - 1))

/-! ## Risk Metrics Engine — lines 57–62

pandas reductions (`mean`, `std`, `min`) skip missing entries, so the four
metrics are functions of the *non-missing* part of the portfolio series;
they are defined here on the gap-free list of those values. -/

/-- `Series.mean()` on the non-missing values. -/
def seriesMean (rs : List ℚ) : ℚ :=
  rs.sum / rs.length

/-- `Series.std()`'s variance: pandas default `ddof=1`, i.e. the *sample*
variance, dividing by `N - 1`. -/
def sampleVar (rs : List ℚ) : ℚ :=
  (rs.map (fun x => (x - seriesMean rs) ^ 2)).sum / ((rs.length : ℚ) - 1)

/-- Line 58: `portfolio_annual_return = portfolio_daily_returns.mean() * 252`. -/
def portfolio_annual_return (rs : List ℚ) : ℚ :=
  seriesMean rs * 252

/-- `portfolio_daily_returns.std()`: the sample standard deviation. -/
noncomputable def seriesStd (rs : List ℚ) : ℝ :=
  Real.sqrt (sampleVar rs)

/-- Line 57: `portfolio_volatility = portfolio_daily_returns.std() * np.sqrt(252)`. -/
noncomputable def portfolio_volatility (rs : List ℚ) : ℝ :=
  seriesStd rs * Real.sqrt 252

/-- Line 59: `sharpe_ratio = portfolio_annual_return / portfolio_volatility`,
a bare IEEE division with no special case: when the divisor is `0` the float
result is non-finite (`inf` or `nan`), modelled as `none`. -/
noncomputable def sharpe_ratio (rs : List ℚ) : Option ℝ :=
  if portfolio_volatility rs = 0 then none
  else some ((portfolio_annual_return rs : ℝ) / portfolio_volatility rs)

/-- The cumulative wealth curve `(1 + portfolio_daily_returns).cumprod()`
of lines 60–61. -/
def wealth (rs : List ℚ) : List ℚ :=
  cumprod (rs.map (fun r => 1 + r))

/-- Running maximum with `m` the maximum so far. -/
def cummaxAux (m : ℚ) : List ℚ → List ℚ
  | [] => []
  | x :: xs => max m x :: cummaxAux (max m x) xs

/-- `Series.cummax()` on a gap-free column. -/
def cummax : List ℚ → List ℚ
  | [] => []
  | x :: xs => x :: cummaxAux x xs

/-- Line 60: `rolling_max = (1 + portfolio_daily_returns).cumprod().cummax()`. -/
def rolling_max (rs : List ℚ) : List ℚ :=
  cummax (wealth rs)

/-- Line 61: `drawdown = (1 + portfolio_daily_returns).cumprod() / rolling_max - 1`.
The float quotient is non-finite exactly when the running maximum is `0`,
and in that case the wealth entry is itself `0` (`rolling_max_zero_imp`,
because a zero wealth entry forces every later wealth entry to be zero), so
every `none` entry here is precisely the program's `0.0 / 0.0 = NaN`. -/
def drawdown (rs : List ℚ) : List (Option ℚ) :=
  List.zipWith (fun w m => if m = 0 then none else some (w / m - 1))
    (wealth rs) (rolling_max rs)

/-- Line 62: `max_drawdown = drawdown.min()`; pandas `Series.min()` defaults
to `skipna=True`: `NaN` entries are ignored, and the result is `NaN` (here
`none`) when no non-missing entry remains (also for an empty series). -/
def max_drawdown (rs : List ℚ) : Option ℚ :=
  ((drawdown rs).filterMap id).min?

/-- A list where a zero entry forces every later entry to be zero — the
shape of every cumulative-product (wealth) series. -/
def ZeroProp : List ℚ → Prop
  | [] => True
  | x :: xs => (x = 0 → ∀ y ∈ xs, y = 0) ∧ ZeroProp xs

/-! ## Helper lemmas -/

theorem pySplit_ne_nil (sep : Char) (s : List Char) : pySplit sep s ≠ [] := by
  induction s with
  | nil => simp [pySplit]
  | cons c rest ih =>
    rw [pySplit]
    rcases h : pySplit sep rest with - | ⟨t, ts⟩
    · exact absurd h ih
    · rcases decEq c sep with h' | h' <;> simp

theorem mapM_eq_none_of_mem {α β : Type} (f : α → Option β) (l : List α) (a : α)
    (ha : a ∈ l) (hf : f a = none) : l.mapM f = none := by
  induction l with
  | nil => cases ha
  | cons x xs ih =>
    rw [List.mapM_cons]
    rcases List.mem_cons.1 ha with rfl | ha'
    · rw [hf]; rfl
    · cases hx : f x
      · rfl
      · simp only [hx, Option.bind_eq_bind, Option.some_bind, ih ha']; rfl

theorem dotNA_const (r : ℚ) : ∀ (row : List (Option ℚ)) (w : List ℚ),
    row.length = w.length → (∀ x ∈ row, x = some r) →
    dotNA row w = some (r * w.sum) := by
  intro row
  induction row with
  | nil =>
    intro w hlen _
    rw [List.length_nil] at hlen
    rw [(List.length_eq_zero.1 hlen.symm)]
    simp [dotNA, sumNA]
  | cons x row' ih =>
    intro w hlen hall
    rcases w with - | ⟨wi, w'⟩
    · cases hlen
    · have hx : x = some r := hall x (List.mem_cons_self x row')
      have hrest : sumNA (List.zipWith (fun x wi => x.map (fun r => r * wi)) row' w') =
          some (r * w'.sum) := by
        have := ih w' (Nat.succ_injective hlen)
          (fun y hy => hall y (List.mem_cons_of_mem x hy))
        simpa [dotNA] using this
      simp only [dotNA, List.zipWith_cons_cons, hx, Option.map_some, sumNA, hrest]
      simp only [Option.map_some', List.sum_cons]
      exact congrArg some (by ring)

theorem dotNA_none : ∀ (row : List (Option ℚ)) (w : List ℚ),
    none ∈ row → row.length = w.length → dotNA row w = none := by
  intro row
  induction row with
  | nil => intro w h; cases h
  | cons x row' ih =>
    intro w hmem hlen
    rcases w with - | ⟨wi, w'⟩
    · cases hlen
    · rcases List.mem_cons.1 hmem with rfl | hmem'
      · simp [dotNA, sumNA, List.zipWith_cons_cons]
      · cases x with
        | none => simp [dotNA, sumNA, List.zipWith_cons_cons]
        | some v =>
          have hrest : sumNA (List.zipWith (fun x wi => x.map (fun r => r * wi)) row' w') =
              none := by
            have := ih w' hmem' (Nat.succ_injective hlen)
            simpa [dotNA] using this
          simp [dotNA, sumNA, List.zipWith_cons_cons, hrest]

theorem cumprodAux_pos : ∀ (l : List ℚ) (acc : ℚ), 0 < acc →
    (∀ x ∈ l, 0 < x) → ∀ y ∈ cumprodAux acc l, 0 < y := by
  intro l
  induction l with
  | nil => intro acc _ _ y hy; cases hy
  | cons x xs ih =>
    intro acc hacc hall y hy
    rw [cumprodAux] at hy
    have hax : 0 < acc * x := mul_pos hacc (hall x (List.mem_cons_self x xs))
    rcases List.mem_cons.1 hy with rfl | hy'
    · exact hax
    · exact ih (acc * x) hax (fun z hz => hall z (List.mem_cons_of_mem x hz)) y hy'

theorem cumprodAux_zero_acc : ∀ (l : List ℚ), ∀ y ∈ cumprodAux 0 l, y = 0 := by
  intro l
  induction l with
  | nil => intro y hy; cases hy
  | cons x xs ih =>
    intro y hy
    rw [cumprodAux, zero_mul] at hy
    rcases List.mem_cons.1 hy with rfl | hy'
    · rfl
    · exact ih y hy'

theorem cumprodAux_zeroProp : ∀ (l : List ℚ) (acc : ℚ), ZeroProp (cumprodAux acc l) := by
  intro l
  induction l with
  | nil => intro acc; trivial
  | cons x xs ih =>
    intro acc
    refine ⟨fun h y hy => ?_, ih (acc * x)⟩
    rw [h] at hy
    exact cumprodAux_zero_acc xs y hy

theorem cummaxAux_zero_imp : ∀ (w : List ℚ) (m : ℚ),
    (m = 0 → ∀ x ∈ w, x = 0) → ZeroProp w → ∀ k : ℕ,
    (cummaxAux m w)[k]? = some 0 → w[k]? = some 0 := by
  intro w
  induction w with
  | nil => intro m _ _ k hk; cases hk
  | cons x xs ih =>
    intro m hm hzp k hk
    rw [cummaxAux] at hk
    cases k with
    | zero =>
      rw [List.getElem?_cons_zero, Option.some.injEq] at hk ⊢
      rcases max_choice m x with hmx | hmx
      · rw [hmx] at hk
        exact hm hk x (List.mem_cons_self x xs)
      · rw [hmx] at hk
        exact hk
    | succ k' =>
      rw [List.getElem?_cons_succ] at hk ⊢
      refine ih (max m x) (fun h y hy => ?_) hzp.2 k' hk
      rcases max_choice m x with hmx | hmx
      · exact hm (hmx ▸ h) y (List.mem_cons_of_mem x hy)
      · exact hzp.1 (hmx ▸ h) y hy

theorem rolling_max_zero_imp (rs : List ℚ) (k : ℕ)
    (h : (rolling_max rs)[k]? = some 0) : (wealth rs)[k]? = some 0 := by
  rcases rs with - | ⟨r, rs'⟩
  · cases h
  · have hzp : ZeroProp (wealth (r :: rs')) := cumprodAux_zeroProp _ 1
    have hw : wealth (r :: rs') =
        (1 * (1 + r)) :: cumprodAux (1 * (1 + r)) (rs'.map (fun s => 1 + s)) := rfl
    have hrm : rolling_max (r :: rs') =
        (1 * (1 + r)) :: cummaxAux (1 * (1 + r))
          (cumprodAux (1 * (1 + r)) (rs'.map (fun s => 1 + s))) := rfl
    rw [hrm] at h
    rw [hw]
    rw [hw] at hzp
    cases k with
    | zero =>
      rw [List.getElem?_cons_zero] at h ⊢
      exact h
    | succ k' =>
      rw [List.getElem?_cons_succ] at h ⊢
      exact cummaxAux_zero_imp _ _ hzp.1 hzp.2 k' h

theorem cummaxAux_zero_all : ∀ (w : List ℚ), (∀ x ∈ w, x = 0) →
    ∀ y ∈ cummaxAux 0 w, y = 0 := by
  intro w
  induction w with
  | nil => intro _ y hy; cases hy
  | cons x xs ih =>
    intro hall y hy
    have hx : x = 0 := hall x (List.mem_cons_self x xs)
    rw [cummaxAux, hx, max_self] at hy
    rcases List.mem_cons.1 hy with rfl | hy'
    · rfl
    · exact ih (fun z hz => hall z (List.mem_cons_of_mem x hz)) y hy'

theorem foldl_min_le_init : ∀ (l : List ℚ) (a : ℚ), l.foldl min a ≤ a := by
  intro l
  induction l with
  | nil => intro a; exact le_refl a
  | cons x xs ih =>
    intro a
    exact le_trans (ih (min a x)) (min_le_left a x)

theorem foldl_min_le_mem : ∀ (l : List ℚ) (a d : ℚ), d ∈ l → l.foldl min a ≤ d := by
  intro l
  induction l with
  | nil => intro a d hd; cases hd
  | cons x xs ih =>
    intro a d hd
    rcases List.mem_cons.1 hd with rfl | hd'
    · exact le_trans (foldl_min_le_init xs (min a d)) (min_le_right a d)
    · exact ih (min a x) d hd'

theorem drawdown_aux_nonpos : ∀ (w : List ℚ) (m : ℚ), (∀ x ∈ w, 0 < x) →
    ∀ d ∈ List.zipWith (fun a b => a / b - 1) w (cummaxAux m w), d ≤ 0 := by
  intro w
  induction w with
  | nil => intro m _ d hd; cases hd
  | cons x xs ih =>
    intro m hall d hd
    rw [cummaxAux, List.zipWith_cons_cons] at hd
    have hx : 0 < x := hall x (List.mem_cons_self x xs)
    rcases List.mem_cons.1 hd with rfl | hd'
    · have hmx : 0 < max m x := lt_of_lt_of_le hx (le_max_right m x)
      have h1 : x / max m x ≤ 1 := (div_le_one hmx).2 (le_max_right m x)
      linarith
    · exact ih (max m x) (fun z hz => hall z (List.mem_cons_of_mem x hz)) d hd'

theorem drawdown_aux_zero_chain : ∀ (w : List ℚ) (m : ℚ), (∀ x ∈ w, 0 < x) →
    (∀ d ∈ List.zipWith (fun a b => a / b - 1) w (cummaxAux m w), d = 0) →
    List.Chain (· ≤ ·) m w := by
  intro w
  induction w with
  | nil => intro m _ _; exact List.Chain.nil
  | cons x xs ih =>
    intro m hall hz
    rw [cummaxAux, List.zipWith_cons_cons] at hz
    have hx : 0 < x := hall x (List.mem_cons_self x xs)
    have hmx : 0 < max m x := lt_of_lt_of_le hx (le_max_right m x)
    have h0 : x / max m x - 1 = 0 :=
      hz (x / max m x - 1) (List.mem_cons_self _ _)
    have h1 : x = max m x := by
      have h2 : x / max m x = 1 := by linarith
      rw [div_eq_iff hmx.ne', one_mul] at h2
      exact h2
    have hchain : List.Chain (· ≤ ·) x xs := by
      have := ih (max m x) (fun z hz' => hall z (List.mem_cons_of_mem x hz'))
        (fun d hd => hz d (List.mem_cons_of_mem _ hd))
      rwa [← h1] at this
    exact List.Chain.cons (by rw [h1]; exact le_max_left m x) hchain

theorem drawdown_cons (r : ℚ) (rs' : List ℚ) :
    drawdown (r :: rs') =
      (if 1 * (1 + r) = 0 then none
        else some ((1 * (1 + r)) / (1 * (1 + r)) - 1)) ::
        List.zipWith (fun w m => if m = 0 then none else some (w / m - 1))
          (cumprodAux (1 * (1 + r)) (rs'.map (fun s => 1 + s)))
          (cummaxAux (1 * (1 + r))
            (cumprodAux (1 * (1 + r)) (rs'.map (fun s => 1 + s)))) :=
  rfl

theorem drawdown_aux_some : ∀ (w : List ℚ) (m : ℚ), (∀ x ∈ w, 0 < x) →
    List.zipWith (fun a b => if b = 0 then none else some (a / b - 1)) w (cummaxAux m w) =
      (List.zipWith (fun a b => a / b - 1) w (cummaxAux m w)).map some := by
  intro w
  induction w with
  | nil => intro m _; rfl
  | cons x xs ih =>
    intro m hall
    have hx : 0 < x := hall x (List.mem_cons_self x xs)
    have hmx : 0 < max m x := lt_of_lt_of_le hx (le_max_right m x)
    rw [cummaxAux, List.zipWith_cons_cons, List.zipWith_cons_cons, List.map_cons,
      if_neg hmx.ne', ih (max m x) (fun z hz => hall z (List.mem_cons_of_mem x hz))]

theorem filterMap_drawdown_zero_rm : ∀ (w rm : List ℚ), (∀ y ∈ rm, y = 0) →
    ((List.zipWith (fun a b => if b = 0 then none else some (a / b - 1)) w rm).filterMap
      id) = [] := by
  intro w
  induction w with
  | nil => intro rm _; rfl
  | cons a as ih =>
    intro rm hrm
    cases rm with
    | nil => rfl
    | cons b bs =>
      rw [List.zipWith_cons_cons, if_pos (hrm b (List.mem_cons_self b bs)),
        List.filterMap_cons]
      exact ih bs (fun y hy => hrm y (List.mem_cons_of_mem b hy))

theorem zipWith_some_eq_map (g : ℚ → ℚ → ℚ) : ∀ (l l' : List ℚ),
    List.zipWith (fun a b => some (g a b)) l l' = (List.zipWith g l l').map some := by
  intro l
  induction l with
  | nil => intro l'; rfl
  | cons x xs ih =>
    intro l'
    cases l' with
    | nil => rfl
    | cons y ys => simp [List.zipWith_cons_cons, ih ys]

theorem cumprodNAAux_map_some : ∀ (zs : List ℚ) (acc : ℚ),
    cumprodNAAux acc (zs.map some) = (cumprodAux acc zs).map some := by
  intro zs
  induction zs with
  | nil => intro acc; rfl
  | cons z zs' ih =>
    intro acc
    simp only [List.map_cons, cumprodNAAux, cumprodAux, ih (acc * z)]

theorem cumprodAux_getElem : ∀ (zs : List ℚ) (acc : ℚ) (k : ℕ), k < zs.length →
    (cumprodAux acc zs)[k]? = some (acc * (zs.take (k + 1)).prod) := by
  intro zs
  induction zs with
  | nil => intro acc k hk; cases hk
  | cons z zs' ih =>
    intro acc k hk
    cases k with
    | zero =>
      simp [cumprodAux, List.take, List.prod_cons]
    | succ k' =>
      rw [cumprodAux, List.getElem?_cons_succ,
        ih (acc * z) k' (Nat.lt_of_succ_lt_succ hk)]
      rw [List.take_cons, List.prod_cons]
      · rw [show k' + 1 + 1 - 1 = k' + 1 from rfl, mul_assoc]
      · exact Nat.succ_pos _

theorem filterMap_id_map_some (l : List ℚ) : (l.map some).filterMap id = l := by
  induction l with
  | nil => rfl
  | cons x xs ih => simp [List.filterMap_cons, ih]

theorem pct_change_cons (p : ℚ) (rest : List ℚ) :
    pct_change (p :: rest) =
      none :: (List.zipWith (fun prev cur => (cur - prev) / prev) (p :: rest) rest).map some := by
  rw [pct_change, zipWith_some_eq_map]

theorem cumulative_returns_cons (p : ℚ) (rest : List ℚ) :
    cumulative_returns (p :: rest) =
      none :: (cumprodAux 1
        ((List.zipWith (fun prev cur => (cur - prev) / prev) (p :: rest) rest).map
          (fun y => 1 + y))).map (fun c => some (c - 1)) := by
  rw [cumulative_returns, pct_change_cons, cumprodNA]
  rw [List.map_cons, Option.map_none', List.map_map]
  rw [show (Option.map (fun r => (1 : ℚ) + r) ∘ some) = some ∘ (fun y => (1 : ℚ) + y)
    from rfl]
  rw [← List.map_map, cumprodNAAux, cumprodNAAux_map_some]
  rw [List.map_cons, Option.map_none', List.map_map]
  rfl

/-! ## Claim theorems -/

/-- Claim C1: for parsed ticker and weight lists, the pipeline halts with a
user-visible validation error iff the lengths differ or the weight sum is
more than `0.001` away from `1`; exactly in that case no request reaches the
market-data provider (and the outcome carries no output). -/
theorem validation_halts_iff (tickers : List (List Char)) (ws : List ℚ) :
    ((∃ msg, validateAndRun tickers ws = .validationError msg) ↔
      (ws.length ≠ tickers.length ∨ |ws.sum - 1| > 1 / 1000)) ∧
    (networkRequest (validateAndRun tickers ws) = none ↔
      (ws.length ≠ tickers.length ∨ |ws.sum - 1| > 1 / 1000)) := by
  unfold validateAndRun
  split_ifs with h1 h2 <;>
    simp_all [networkRequest]

/-- Claim C7: for tickers `["A","B"]` with weights `[0.5, 0.5]` and daily
returns `A = [0.01, -0.02]`, `B = [0.03, 0.01]`, the portfolio daily returns
are `[0.02, -0.005]` and the portfolio cumulative returns are
`[0.02, 0.0149]`, within `1e-4` of the spec's `[0.02, 0.01490]`. -/
theorem concrete_two_ticker_scenario :
    portfolio_daily_returns
        [[some (1/100), some (3/100)], [some (-2/100), some (1/100)]]
        [5/10, 5/10] = [some (2/100), some (-5/1000)] ∧
    portfolio_cumulative_returns
        [[some (1/100), some (3/100)], [some (-2/100), some (1/100)]]
        [5/10, 5/10] = [some (1/50), some (149/10000)] ∧
    |(1/50 : ℚ) - 2/100| ≤ 1/10000 ∧ |(149/10000 : ℚ) - 1490/100000| ≤ 1/10000 := by
  refine ⟨?_, ?_, by norm_num, by norm_num⟩ <;>
  · simp only [portfolio_daily_returns, portfolio_cumulative_returns, dotNA,
      sumNA, cumprodNA, cumprodNAAux, List.zipWith, List.map, Option.map_some]
    norm_num

/-- Claim C9 (counterexample): ticker parsing does not deduplicate — the
input string `"SPY,SPY"` yields a list with two equal symbols, so the parsed
collection is not a duplicate-free set. -/
theorem etf_list_has_duplicates :
    ¬ (etf_list ['S', 'P', 'Y', ',', 'S', 'P', 'Y']).Nodup := by
  decide

/-- Claim C9 (amended): the parsed ticker collection is a *list* of trimmed,
upper-cased symbols that always contains at least one element (Python's
`split` never returns an empty list); duplicates and empty symbols are kept,
so it is not a set. -/
theorem etf_list_ne_nil (etfs : List Char) : etf_list etfs ≠ [] := by
  unfold etf_list
  simp [pySplit_ne_nil]

/-- Claim C10: if any comma-separated weight token is rejected by
`float(...)`, the run aborts with an uncaught exception: neither validation
check runs, no validation message is shown, and no network access happens. -/
theorem bad_weight_token_aborts (pyFloat : List Char → Option ℚ)
    (etfs weights_input : List Char)
    (h : ∃ tok ∈ pySplit ',' weights_input, pyFloat (pyStrip tok) = none) :
    runPipeline pyFloat etfs weights_input = .uncaughtException := by
  obtain ⟨tok, htok, hnone⟩ := h
  unfold runPipeline weights_list
  rw [mapM_eq_none_of_mem _ _ tok htok hnone]

/-- Witness for C10 at the concrete input `"0.4,oops"` with a parser that
accepts `"0.4"` and rejects `"oops"`. -/
theorem bad_weight_token_aborts_witness :
    runPipeline
      (fun t => if t = ['0', '.', '4'] then some (4/10) else none)
      ['S', 'P', 'Y'] ['0', '.', '4', ',', 'o', 'o', 'p', 's'] =
      .uncaughtException :=
  bad_weight_token_aborts _ _ _
    ⟨['o', 'o', 'p', 's'], by decide, by decide⟩

/-- Claim C4: when the weights sum exactly to `1` and every ticker's daily
return on a date equals the same constant `r`, the portfolio daily return
(the weighted dot product of that date's row) equals `r`. -/
theorem equal_returns_give_portfolio_r (rows : List (List (Option ℚ)))
    (w : List ℚ) (t : ℕ) (row : List (Option ℚ)) (r : ℚ)
    (hrow : rows[t]? = some row) (hlen : row.length = w.length)
    (hsum : w.sum = 1) (hall : ∀ x ∈ row, x = some r) :
    (portfolio_daily_returns rows w)[t]? = some (some r) := by
  unfold portfolio_daily_returns
  rw [List.getElem?_map, hrow, Option.map_some',
    dotNA_const r row w hlen hall, hsum, mul_one]

/-- Witness for C4: two tickers both returning `0.1` on the only date, with
weights `[0.5, 0.5]`. -/
theorem equal_returns_give_portfolio_r_witness :
    (portfolio_daily_returns [[some (1/10), some (1/10)]] [1/2, 1/2])[0]? =
      some (some (1/10)) :=
  equal_returns_give_portfolio_r _ _ 0 [some (1/10), some (1/10)] (1/10)
    rfl rfl (by norm_num) (by simp)

/-- Claim C5: on any date where at least one ticker's daily return is
missing, the portfolio daily return is missing: the weighted dot product
takes no partial sum over the tickers that do have data. -/
theorem missing_return_propagates (rows : List (List (Option ℚ)))
    (w : List ℚ) (t : ℕ) (row : List (Option ℚ))
    (hrow : rows[t]? = some row) (hmem : none ∈ row)
    (hlen : row.length = w.length) :
    (portfolio_daily_returns rows w)[t]? = some none := by
  unfold portfolio_daily_returns
  rw [List.getElem?_map, hrow, Option.map_some', dotNA_none row w hmem hlen]

/-- Witness for C5: the first ticker's return is missing on the only date,
the second one's is not. -/
theorem missing_return_propagates_witness :
    (portfolio_daily_returns [[none, some (3/100)]] [1/2, 1/2])[0]? =
      some none :=
  missing_return_propagates _ _ 0 [none, some (3/100)] rfl (by simp) rfl

theorem portfolio_volatility_three_zeros : portfolio_volatility [0, 0, 0] = 0 := by
  have hv : sampleVar [0, 0, 0] = 0 := by
    norm_num [sampleVar, seriesMean]
  rw [portfolio_volatility, seriesStd, hv]
  simp

/-- Claim C6: the Sharpe ratio is the bare quotient
`portfolio_annual_return / portfolio_volatility`; whenever the annualized
volatility is zero the float result is non-finite (`none` here), with no
error raised, and for the constant series `[0, 0, 0]` the annualized
volatility is `0` and the max drawdown is `0`. -/
theorem sharpe_nonfinite_when_zero_vol (rs : List ℚ)
    (h : portfolio_volatility rs = 0) :
    sharpe_ratio rs = none ∧
    portfolio_volatility [0, 0, 0] = 0 ∧
    max_drawdown [0, 0, 0] = some 0 := by
  refine ⟨by rw [sharpe_ratio, if_pos h], portfolio_volatility_three_zeros, ?_⟩
  norm_num [max_drawdown, drawdown, wealth, cumprod, cumprodAux, rolling_max,
    cummax, cummaxAux, List.min?, List.filterMap_cons]

/-- Witness for C6 at the spec's constant series `[0, 0, 0]`. -/
theorem sharpe_nonfinite_when_zero_vol_witness :
    sharpe_ratio [0, 0, 0] = none ∧
    portfolio_volatility [0, 0, 0] = 0 ∧
    max_drawdown [0, 0, 0] = some 0 :=
  sharpe_nonfinite_when_zero_vol [0, 0, 0] portfolio_volatility_three_zeros

/-- Claim C8: the annualized volatility is the *sample* standard deviation
of the series — squared deviations from the mean summed and divided by
`N - 1`, not `N` — multiplied by `sqrt 252`. -/
theorem volatility_is_sample_std (rs : List ℚ) (h : 2 ≤ rs.length) :
    portfolio_volatility rs =
      Real.sqrt (((rs.map (fun x => (x - rs.sum / rs.length) ^ 2)).sum /
        ((rs.length : ℚ) - 1) : ℚ)) * Real.sqrt 252 := by
  rw [portfolio_volatility, seriesStd, sampleVar, seriesMean]

/-- Claim C3: for a gap-free price series, at every index `t ≥ 1` (the first
daily return has no prior day and is missing by construction) the cumulative
return satisfies `c + 1 = Π (1 + daily_return[i])` over the non-missing
daily returns with `i ≤ t`. -/
theorem cumulative_returns_compound (prices : List ℚ) (t : ℕ)
    (h1 : 1 ≤ t) (h2 : t < prices.length) :
    ∃ c, (cumulative_returns prices)[t]? = some (some c) ∧
      c + 1 = ((((pct_change prices).take (t + 1)).filterMap id).map
        (fun r => 1 + r)).prod := by
  rcases prices with - | ⟨p, rest⟩
  · simp at h2
  · obtain ⟨k, rfl⟩ : ∃ k, t = k + 1 := ⟨t - 1, (Nat.succ_pred_eq_of_pos h1).symm⟩
    set ys := List.zipWith (fun prev cur => (cur - prev) / prev) (p :: rest) rest with hys
    have hlen : ys.length = rest.length := by
      rw [hys, List.length_zipWith, List.length_cons]
      omega
    have hk : k < (ys.map (fun y => 1 + y)).length := by
      rw [List.length_map, hlen]
      rw [List.length_cons] at h2
      omega
    refine ⟨1 * ((ys.map (fun y => 1 + y)).take (k + 1)).prod - 1, ?_, ?_⟩
    · rw [cumulative_returns_cons, List.getElem?_cons_succ, List.getElem?_map,
        cumprodAux_getElem _ 1 k hk, Option.map_some']
    · rw [pct_change_cons, List.take_succ_cons]
      rw [show (List.filterMap id (none :: (ys.map some).take (k + 1))) =
        List.filterMap id ((ys.map some).take (k + 1)) from by
          simp [List.filterMap_cons]]
      rw [← List.map_take, ← List.map_take, filterMap_id_map_some]
      ring

/-- Witness for C3 at the price series `[100, 102, 99]` and index `t = 2`. -/
theorem cumulative_returns_compound_witness :
    ∃ c, (cumulative_returns [100, 102, 99])[2]? = some (some c) ∧
      c + 1 = ((((pct_change [100, 102, 99]).take (2 + 1)).filterMap id).map
        (fun r => 1 + r)).prod :=
  cumulative_returns_compound [100, 102, 99] 2 (by decide) (by decide)

/-- Claim C2 (counterexample): for the portfolio daily-return series
`[-2, 1]` (a return below `-100%` makes the wealth curve negative) the
computed maximum drawdown is `0`, yet the cumulative wealth curve
`[-1, -2]` is strictly decreasing — so max drawdown `0` does not imply a
non-decreasing wealth curve for arbitrary series. -/
theorem max_drawdown_zero_with_decreasing_wealth :
    max_drawdown [-2, 1] = some 0 ∧
    ¬ List.Chain' (· ≤ ·) (wealth [-2, 1]) := by
  constructor
  · norm_num [max_drawdown, drawdown, wealth, cumprod, cumprodAux,
      rolling_max, cummax, cummaxAux, List.min?, List.filterMap_cons]
  · norm_num [wealth, cumprod, cumprodAux, List.chain'_cons]

/-- Claim C2 (amended): whenever the maximum drawdown is a number it is
`≤ 0` (for a series whose wealth curve is zero from the first date, such as
`[-1]`, the drawdown series is all-`NaN` and the program's max drawdown is
`NaN`, not a number); and provided every daily return exceeds `-1` (positive
wealth curve), a maximum drawdown of `0` forces the cumulative wealth curve
to be non-decreasing throughout. -/
theorem max_drawdown_nonpos_zero_monotone (rs : List ℚ) :
    (∀ m, max_drawdown rs = some m → m ≤ 0) ∧
    ((∀ r ∈ rs, -1 < r) → max_drawdown rs = some 0 →
      List.Chain' (· ≤ ·) (wealth rs)) ∧
    max_drawdown [-1] = none := by
  refine ⟨?_, ?_, ?_⟩
  · intro m hm
    rcases rs with - | ⟨r, rs'⟩
    · simp [max_drawdown, drawdown, wealth, cumprod, cumprodAux,
        rolling_max, cummax] at hm
    · by_cases h0 : 1 * (1 + r) = 0
      · have hall : ∀ y ∈ cummaxAux (1 * (1 + r))
            (cumprodAux (1 * (1 + r)) (rs'.map (fun s => 1 + s))), y = 0 := by
          rw [h0]
          exact cummaxAux_zero_all _ (cumprodAux_zero_acc _)
        rw [max_drawdown, drawdown_cons, if_pos h0, List.filterMap_cons] at hm
        simp only [id_eq] at hm
        rw [filterMap_drawdown_zero_rm _ _ hall] at hm
        cases hm
      · rw [max_drawdown, drawdown_cons, if_neg h0] at hm
        have hd0 : (1 * (1 + r)) / (1 * (1 + r)) - 1 = 0 := by
          rw [div_self h0]; ring
        rw [hd0, List.filterMap_cons] at hm
        simp only [id_eq] at hm
        rw [List.min?] at hm
        rw [← Option.some.inj hm]
        exact foldl_min_le_init _ 0
  · intro hpos hmin
    rcases rs with - | ⟨r, rs'⟩
    · simp [wealth, cumprod, cumprodAux]
    · have hw : ∀ y ∈ cumprodAux 1 ((r :: rs').map (fun s => 1 + s)), 0 < y := by
        refine cumprodAux_pos _ 1 one_pos ?_
        intro x hx
        obtain ⟨s, hs, rfl⟩ := List.mem_map.1 hx
        have := hpos s hs
        linarith
      have hw0 : 0 < 1 * (1 + r) := hw _ (by rw [List.map_cons, cumprodAux]; exact List.mem_cons_self _ _)
      have hws : ∀ y ∈ cumprodAux (1 * (1 + r)) (rs'.map (fun s => 1 + s)), 0 < y := by
        intro y hy
        exact hw y (by rw [List.map_cons, cumprodAux]; exact List.mem_cons_of_mem _ hy)
      rw [max_drawdown, drawdown_cons, if_neg hw0.ne'] at hmin
      have hd0 : (1 * (1 + r)) / (1 * (1 + r)) - 1 = 0 := by
        rw [div_self hw0.ne']; ring
      rw [hd0, drawdown_aux_some _ _ hws, List.filterMap_cons] at hmin
      simp only [id_eq] at hmin
      rw [filterMap_id_map_some] at hmin
      have hfold : (List.zipWith (fun w m => w / m - 1)
          (cumprodAux (1 * (1 + r)) (rs'.map (fun s => 1 + s)))
          (cummaxAux (1 * (1 + r))
            (cumprodAux (1 * (1 + r)) (rs'.map (fun s => 1 + s))))).foldl min 0 = 0 := by
        rw [List.min?] at hmin
        exact Option.some.inj hmin
      have hallzero : ∀ d ∈ List.zipWith (fun w m => w / m - 1)
          (cumprodAux (1 * (1 + r)) (rs'.map (fun s => 1 + s)))
          (cummaxAux (1 * (1 + r))
            (cumprodAux (1 * (1 + r)) (rs'.map (fun s => 1 + s)))), d = 0 := by
        intro d hd
        have hle : d ≤ 0 := drawdown_aux_nonpos _ _ hws d hd
        have hge : 0 ≤ d := hfold ▸ foldl_min_le_mem _ 0 d hd
        exact le_antisymm hle hge
      have hchain : List.Chain (· ≤ ·) (1 * (1 + r))
          (cumprodAux (1 * (1 + r)) (rs'.map (fun s => 1 + s))) :=
        drawdown_aux_zero_chain _ _ hws hallzero
      exact hchain
  · norm_num [max_drawdown, drawdown, wealth, cumprod, cumprodAux,
      rolling_max, cummax, cummaxAux, List.min?, List.filterMap_cons]

/-- Witness for C2 (amended) at the one-entry series `[0.01]`: its max
drawdown `0` is `≤ 0`, its wealth curve is non-decreasing, and the all-`NaN`
series `[-1]` has max drawdown `NaN`. -/
theorem max_drawdown_nonpos_zero_monotone_witness :
    (0 : ℚ) ≤ 0 ∧ List.Chain' (· ≤ ·) (wealth [1/100]) ∧
    max_drawdown [-1] = none :=
  ⟨(max_drawdown_nonpos_zero_monotone [1/100]).1 0
      (by norm_num [max_drawdown, drawdown, wealth, cumprod, cumprodAux,
        rolling_max, cummax, cummaxAux, List.min?, List.filterMap_cons]),
    (max_drawdown_nonpos_zero_monotone [1/100]).2.1
      (by intro r hr; rw [List.mem_singleton] at hr; rw [hr]; norm_num)
      (by norm_num [max_drawdown, drawdown, wealth, cumprod, cumprodAux,
        rolling_max, cummax, cummaxAux, List.min?, List.filterMap_cons]),
    (max_drawdown_nonpos_zero_monotone [1/100]).2.2⟩

/-- Witness for C8 at the two-entry series `[0, 0.01]`. -/
theorem volatility_is_sample_std_witness :
    portfolio_volatility [0, 1/100] =
      Real.sqrt (((([0, 1/100] : List ℚ).map
          (fun x => (x - ([0, 1/100] : List ℚ).sum / ([0, 1/100] : List ℚ).length) ^ 2)).sum /
        ((([0, 1/100] : List ℚ).length : ℚ) - 1) : ℚ)) * Real.sqrt 252 :=
  volatility_is_sample_std [0, 1/100] (by norm_num)

end EtfTracker
